import Mathlib

/-!
Verification of the hive multi-agent orchestration tool against its
natural-language specification.

The development shallowly embeds the relevant Go functions of the
repository as executable Lean definitions and proves (or refutes) the
spec claims about them.  Go strings are modelled as `List Char`; Go
`len` and slicing are byte-based while the model is character-based,
which coincides on ASCII data (all inputs the claims exercise are
ASCII).  Stateful store code is modelled by explicit state passing over
a work-item state; external effects (git commands, subprocesses) are
modelled as oracle inputs describing the outcome of each effect.
-/

namespace Hive

/-- Characters that Go `unicode.IsSpace` accepts within ASCII; this is the
whitespace set used by `strings.TrimSpace` and by the regexp escape for
white space on the ASCII inputs considered here. -/
def goIsSpace (c : Char) : Bool :=
  c = ' ' || c = '\t' || c = '\n' || c = '\r' || c = '\x0b' || c = '\x0c'

/-- Left half of Go `strings.TrimSpace`. -/
def goTrimLeft (l : List Char) : List Char := l.dropWhile goIsSpace

/-- Right half of Go `strings.TrimSpace`. -/
def goTrimRight (l : List Char) : List Char := (l.reverse.dropWhile goIsSpace).reverse

/-- Go `strings.TrimSpace` over the character list of a string. -/
def goTrimSpace (l : List Char) : List Char := goTrimRight (goTrimLeft l)

/-- Go `strings.ToUpper`, restricted to its ASCII behaviour. -/
def goToUpper (l : List Char) : List Char := l.map Char.toUpper

/-- Go `strings.ToLower`, restricted to its ASCII behaviour. -/
def goToLower (l : List Char) : List Char := l.map Char.toLower

/-- Go `strings.Split` with a one-character separator.  An empty input
yields one empty piece, as in Go. -/
def splitOnChar (sep : Char) : List Char → List (List Char)
  | [] => [[]]
  | c :: rest =>
    match splitOnChar sep rest with
    | [] => [[]]
    | cur :: others => if c = sep then [] :: cur :: others else (c :: cur) :: others

/-- Go `strings.HasPrefix`. -/
def goStartsWith (l pre : List Char) : Bool := pre.isPrefixOf l

/-- Go `strings.HasSuffix`. -/
def goEndsWith (l suf : List Char) : Bool := suf.isSuffixOf l

/-- Go `strings.Contains`. -/
def goContainsSub (sub : List Char) : List Char → Bool
  | [] => sub.isEmpty
  | c :: rest => sub.isPrefixOf (c :: rest) || goContainsSub sub rest

/-- Go `strings.Index`: position of the leftmost occurrence of `sub`. -/
def goIndexSub (sub : List Char) : List Char → Option Nat
  | [] => if sub.isEmpty then some 0 else none
  | c :: rest =>
    if sub.isPrefixOf (c :: rest) then some 0
    else (goIndexSub sub rest).map (· + 1)

/-- Go `strings.Trim` with a cutset: strips any run of cutset characters
from both ends. -/
def goTrimSet (cutset : List Char) (l : List Char) : List Char :=
  ((l.dropWhile (cutset.contains ·)).reverse.dropWhile (cutset.contains ·)).reverse

/-- Go `strings.TrimRight` with a cutset. -/
def goTrimRightSet (cutset : List Char) (l : List Char) : List Char :=
  (l.reverse.dropWhile (cutset.contains ·)).reverse

/-- Go `strings.TrimPrefix`. -/
def goTrimPre (pre l : List Char) : List Char :=
  if pre.isPrefixOf l then l.drop pre.length else l

/-- Go `strings.TrimSuffix`. -/
def goTrimSuf (suf l : List Char) : List Char :=
  if suf.isSuffixOf l then l.take (l.length - suf.length) else l

/-- Go `strings.TrimLeft` with a cutset. -/
def goTrimLeftSet (cutset : List Char) (l : List Char) : List Char :=
  l.dropWhile (cutset.contains ·)

/-- Decimal rendering of a natural number, as Go `fmt.Sprintf` with a
decimal verb produces it. -/
def natChars (n : Nat) : List Char := (Nat.repr n).data

/-! ## Context builder: diff acquisition and truncation
Embeds `gitDiff` and `truncateDiff` from `internal/context/builder.go`. -/

/-- Embeds `truncateDiff`: diffs of more than `maxLen = 8000` bytes are cut
to 8000 bytes and a footer naming the original byte length is appended. -/
def truncateDiff (diff : List Char) : List Char :=
  if diff.length ≤ 8000 then diff
  else
    diff.take 8000 ++ "\n\n... (diff truncated, ".data
      ++ natChars diff.length ++ " bytes total)".data

/-- Outcome of one `git diff` invocation: `none` models a command error,
`some out` the captured output. -/
structure DiffCmds where
  unstaged : Option (List Char)
  staged : Option (List Char)
  lastCommit : Option (List Char)

/-- Go condition `err == nil && len(out) > 0` used by `gitDiff` on each
command result. -/
def cmdOk : Option (List Char) → Bool
  | some o => 0 < o.length
  | none => false

/-- Embeds `gitDiff`: try uncommitted changes, then staged changes, then
the diff against the previous commit; each successful non-empty result is
truncated and returned, otherwise the empty string. -/
def gitDiff (d : DiffCmds) : List Char :=
  if cmdOk d.unstaged then truncateDiff (d.unstaged.getD [])
  else if cmdOk d.staged then truncateDiff (d.staged.getD [])
  else if cmdOk d.lastCommit then truncateDiff (d.lastCommit.getD [])
  else []

/-! ## Config: CLI flag injection
Embeds `Agent.EffectiveArgs` from `internal/config/config.go`. -/

/-- Embeds the `Agent` config record (the fields `EffectiveArgs` reads). -/
structure Agent where
  role : String
  mode : String
  cmd : String
  args : List String
  autoAccept : Bool

/-- Embeds `containsAny`: whether any of the targets occurs in the slice. -/
def containsAny (slice : List String) (targets : List String) : Bool :=
  slice.any (fun s => targets.any (fun t => s = t))

/-- Embeds `EffectiveArgs`: injects non-interactive and auto-accept flags
for the known CLI tools, prepending each flag only when neither it nor its
recognised equivalent is already present.  The Go `gemini` case contains a
dead first branch that adds nothing; only the yolo injection acts. -/
def EffectiveArgs (a : Agent) : List String :=
  if a.mode ≠ "cli" then a.args
  else if a.cmd = "claude" then
    let args1 := if !containsAny a.args ["-p", "--print"] then "--print" :: a.args else a.args
    if a.autoAccept && !containsAny args1 ["--dangerously-skip-permissions", "--permission-mode"]
    then "--dangerously-skip-permissions" :: args1 else args1
  else if a.cmd = "gemini" then
    if a.autoAccept && !containsAny a.args ["-y", "--yolo"] then "--yolo" :: a.args else a.args
  else if a.cmd = "codex" then
    if a.autoAccept && !containsAny a.args ["--full-auto", "--approval-mode"]
    then "--full-auto" :: a.args else a.args
  else a.args

/-! ## Output parser: review verdicts
Embeds `ParseReview` (verdict computation) and `inferVerdict` from
`internal/agent/parser.go`. -/

/-- Vote of a single output line in the first pass of `ParseReview`: a line
that mentions VERDICT and a colon classifies the text after the first colon
(upper-cased, markdown characters stripped) as an approve vote, a reject
vote, or no vote; any other line casts no vote.  The Go loop assigns
`result.Verdict` from each vote in order, so a later vote overrides an
earlier one and a no-vote line leaves the current verdict in place. -/
def verdictVote (line : List Char) : Option String :=
  let trimmed := goTrimSpace line
  let lineUpper := goToUpper trimmed
  if goContainsSub "VERDICT".data lineUpper && goContainsSub [':'] lineUpper then
    let afterColon :=
      match goIndexSub [':'] lineUpper with
      | some idx => goToUpper (goTrimSpace (trimmed.drop (idx + 1)))
      | none => []
    let cleaned := goTrimSpace (afterColon.filter fun c => !(c = '*' || c = '`' || c = '#'))
    if goContainsSub "APPROVE".data cleaned || goContainsSub "ACCEPT".data cleaned then
      some "APPROVE"
    else if goContainsSub "REJECT".data cleaned || goContainsSub "FAIL".data cleaned then
      some "REJECT"
    else none
  else none

/-- Fold of the first pass of `ParseReview` over the output lines, carrying
the verdict assigned so far. -/
def pass1Verdict (acc : String) : List (List Char) → String
  | [] => acc
  | l :: rest =>
    match verdictVote l with
    | some v => pass1Verdict v rest
    | none => pass1Verdict acc rest

/-- Positive signals of `inferVerdict`. -/
def approveSignals : List (List Char) :=
  ["LGTM".data, "LOOKS GOOD".data, "I APPROVE".data, "APPROVED".data,
   "CHANGES ARE GOOD".data, "CHANGES LOOK GOOD".data,
   "NO ISSUES FOUND".data, "NO PROBLEMS FOUND".data,
   "SHIP IT".data, "READY TO MERGE".data]

/-- Negative signals of `inferVerdict`. -/
def rejectSignals : List (List Char) :=
  ["I REJECT".data, "REJECTED".data, "CHANGES REJECTED".data,
   "MUST BE FIXED".data, "NEEDS FIXING".data, "CRITICAL ISSUE".data,
   "NOT APPROVED".data, "DO NOT MERGE".data, "CANNOT APPROVE".data,
   "VULNERABILITY".data, "SECURITY ISSUE".data, "BUG FOUND".data,
   "HAS NOT BEEN FIXED".data, "NOT BEEN FIXED".data, "STILL VULNERABLE".data]

/-- Number of signals of a list that occur in the upper-cased output. -/
def signalScore (signals : List (List Char)) (upper : List Char) : Nat :=
  signals.countP fun sig => goContainsSub sig upper

/-- Embeds `inferVerdict`: the keyword heuristic over the upper-cased
output; a reject needs at least one reject signal and at least as many
reject as approve signals, an approve needs strictly more approve signals
and at least one. -/
def inferVerdict (upper : List Char) : String :=
  let a := signalScore approveSignals upper
  let r := signalScore rejectSignals upper
  if r > 0 && r ≥ a then "REJECT"
  else if a > 0 && a > r then "APPROVE"
  else ""

/-- Embeds the verdict computation of `ParseReview`: the first pass folds
the per-line votes, and only when it assigned nothing does the second pass
apply `inferVerdict` to the upper-cased whole output.  The comment
extraction of `ParseReview` never influences the verdict and is not
modelled. -/
def parseReviewVerdict (s : String) : String :=
  let v := pass1Verdict "" (splitOnChar '\n' s.data)
  if v = "" then inferVerdict (goToUpper s.data) else v

/-! ## Output parser: subtask lists
Embeds `ParseSubtasks` and `isGarbageSubtask` from
`internal/agent/parser.go` (the version with the explicit-header and
garbage filters, matching the cited lines). -/

/-- Embeds `ParsedSubtask`. -/
structure ParsedSubtask where
  title : List Char
  description : List Char
  priority : String
  deriving DecidableEq, Repr

/-- Match of the regexp for a numbered or bulleted list item, specialised
to the space-trimmed lines `ParseSubtasks` feeds it: one or more digits
followed by a dot or closing parenthesis, or a dash or star followed by at
least one space; returns the captured remainder after any further spaces.
On a trimmed line the capture group takes exactly that remainder, which
must be non-empty for the pattern to match. -/
def numberedMatch : List Char → Option (List Char)
  | [] => none
  | c :: rest =>
    if c.isDigit then
      match rest.dropWhile Char.isDigit with
      | sep :: after =>
        if sep = '.' || sep = ')' then
          let cap := after.dropWhile goIsSpace
          if cap.isEmpty then none else some cap
        else none
      | [] => none
    else if c = '-' || c = '*' then
      match rest with
      | s :: _ =>
        if goIsSpace s then
          let cap := rest.dropWhile goIsSpace
          if cap.isEmpty then none else some cap
        else none
      | [] => none
    else none

/-- Match of the priority regexp at the head of the list: the literal
opener, optional spaces, one of the three priority words, and a closing
parenthesis; returns the priority and the remainder after the match. -/
def priMatchAt (l : List Char) : Option (String × List Char) :=
  if "(priority:".data.isPrefixOf l then
    if "high)".data.isPrefixOf ((l.drop 10).dropWhile goIsSpace) then
      some ("high", ((l.drop 10).dropWhile goIsSpace).drop 5)
    else if "medium)".data.isPrefixOf ((l.drop 10).dropWhile goIsSpace) then
      some ("medium", ((l.drop 10).dropWhile goIsSpace).drop 7)
    else if "low)".data.isPrefixOf ((l.drop 10).dropWhile goIsSpace) then
      some ("low", ((l.drop 10).dropWhile goIsSpace).drop 4)
    else none
  else none

/-- Leftmost match of the priority regexp, as Go FindStringSubmatch
returns it. -/
def priorityFindAux : List Char → Option String
  | [] => none
  | c :: rest =>
    match priMatchAt (c :: rest) with
    | some (p, _) => some p
    | none => priorityFindAux rest

/-- Removal of every match of the priority regexp, as Go ReplaceAllString
with an empty replacement, driven by a character-count fuel so that the
recursion is structural: every step consumes at least one character, so a
fuel of the input length always suffices. -/
def priorityRemoveAllFuel : Nat → List Char → List Char
  | 0, l => l
  | fuel + 1, l =>
    match priMatchAt l with
    | some (_, rest) => priorityRemoveAllFuel fuel rest
    | none =>
      match l with
      | [] => []
      | c :: rest => c :: priorityRemoveAllFuel fuel rest

/-- Removal of every priority-regexp match from the content. -/
def priorityRemoveAll (l : List Char) : List Char := priorityRemoveAllFuel l.length l

/-- Embeds `isGarbageSubtask`: a cleaned title is discarded when it starts
with one of the well-known section headings or is shorter than five
characters. -/
def isGarbageSubtask (title : List Char) : Bool :=
  let lower := goToLower title
  (["existing mitigations".data, "known limitations".data, "low-risk issues".data,
    "high-risk issues".data, "medium-risk issues".data, "summary".data,
    "overview".data, "background".data, "findings".data, "analysis".data,
    "recommendations".data, "conclusion".data, "references".data, "notes".data,
    "already mitigated".data, "documented as".data, "currently".data].any
      fun p => p.isPrefixOf lower)
  || title.length < 5

/-- Priority extracted by the loop body: the first priority-regexp match
or medium when there is none. -/
def subtaskPriority (content : List Char) : String :=
  match priorityFindAux content with
  | some p => p
  | none => "medium"

/-- Content after the loop body removed the priority annotation, when one
was found. -/
def subtaskContent2 (content : List Char) : List Char :=
  if (priorityFindAux content).isSome then goTrimSpace (priorityRemoveAll content)
  else content

/-- Title and description split of the loop body: the content is split at
the first separator occurrence when it sits at a positive index. -/
def subtaskTitleDesc (content2 : List Char) : List Char × List Char :=
  match goIndexSub " - ".data content2 with
  | some idx =>
    if idx > 0 then (goTrimSpace (content2.take idx), goTrimSpace (content2.drop (idx + 3)))
    else (content2, [])
  | none => (content2, [])

/-- Markdown cleanup of the title in the loop body: strip brackets and
backticks from both ends, then surrounding bold markers, then trailing
colons, then white space. -/
def cleanTitle (t : List Char) : List Char :=
  goTrimSpace (goTrimRightSet [':']
    (goTrimSuf "**".data (goTrimPre "**".data (goTrimSet "[]`".data t))))

/-- Body of the `ParseSubtasks` loop after a line matched the list-item
regexp: extract the priority (defaulting to medium), split the optional
description after the separator, strip markdown decorations from the
title, and drop garbage or empty titles. -/
def subtaskOfContent (content : List Char) : Option ParsedSubtask :=
  let t5 := cleanTitle (subtaskTitleDesc (subtaskContent2 content)).1
  if isGarbageSubtask t5 then none
  else if t5 ≠ [] then
    some ⟨t5, (subtaskTitleDesc (subtaskContent2 content)).2, subtaskPriority content⟩
  else none

/-- Upper-cased header marker of the subtask section. -/
def subtasksHeader : List Char := "SUBTASKS:".data

/-- Whether a raw line is the SUBTASKS: header after trimming and
upper-casing. -/
def isHeaderLine (l : List Char) : Bool :=
  goStartsWith (goToUpper (goTrimSpace l)) subtasksHeader

/-- Control-flow outcome of one iteration of the `ParseSubtasks` loop:
switch the section flag on and continue, continue unchanged, stop the
loop, or process a matched list item (which also leaves the section flag
on). -/
inductive LoopStep where
  | toSection
  | keep
  | halt
  | item (content : List Char)
  deriving DecidableEq, Repr

/-- Dispatch of one line of the `ParseSubtasks` loop: a header line enters
the section; inside the section empty lines are kept and non-list lines
either stop the loop (when they end in a colon, a new section header) or
are kept; before the section everything is skipped when an explicit
header exists, and otherwise a list line starts the section.  A line that
reaches the match point is re-matched defensively exactly as in the Go
code. -/
def lineStep (hasHdr inSection : Bool) (line : List Char) : LoopStep :=
  let trimmed := goTrimSpace line
  if goStartsWith (goToUpper trimmed) subtasksHeader then .toSection
  else if inSection && trimmed.isEmpty then .keep
  else if inSection && !(numberedMatch trimmed).isSome && !trimmed.isEmpty then
    if goEndsWith trimmed [':'] then .halt else .keep
  else if !inSection && hasHdr then .keep
  else if !inSection && !(numberedMatch trimmed).isSome then .keep
  else
    match numberedMatch trimmed with
    | some content => .item content
    | none => .toSection

/-- Embeds the line loop of `ParseSubtasks`, driven by `lineStep`. -/
def parseLoop (hasHdr : Bool) : Bool → List (List Char) → List ParsedSubtask
  | _, [] => []
  | inSection, line :: rest =>
    match lineStep hasHdr inSection line with
    | .toSection => parseLoop hasHdr true rest
    | .keep => parseLoop hasHdr inSection rest
    | .halt => []
    | .item content =>
      match subtaskOfContent content with
      | none => parseLoop hasHdr true rest
      | some st => st :: parseLoop hasHdr true rest

/-- Embeds `ParseSubtasks` over the split lines: detect an explicit
header, run the loop, and cap the result at ten subtasks. -/
def ParseSubtasksL (lines : List (List Char)) : List ParsedSubtask :=
  let hasHdr := lines.any isHeaderLine
  let subtasks := parseLoop hasHdr false lines
  if subtasks.length > 10 then subtasks.take 10 else subtasks

/-- Embeds `ParseSubtasks` on a whole output string. -/
def ParseSubtasks (s : String) : List ParsedSubtask :=
  ParseSubtasksL (splitOnChar '\n' s.data)

/-! ## Store: work-item state machine
Embeds the status and blocked-reason mutations of the store
(`UpdateTaskStatus`, `BlockTask`, `UnblockTask`, `ResetStaleTasks`), the
skip branch of `runAnswer`, and the per-task cascade of `runEpicReject`,
as a state machine over one work item and its event log. -/

/-- Task statuses of the store model.  The `cancelled` status is used by
the cancel and skip commands of the CLI alongside the constants declared
in `internal/store/models.go`. -/
inductive TaskStatus where
  | backlog
  | inProgress
  | blocked
  | review
  | done
  | failed
  | cancelled
  deriving DecidableEq, Repr

/-- String rendering of a status, as stored in the database and printed
into event contents. -/
def statusStr : TaskStatus → String
  | .backlog => "backlog"
  | .inProgress => "in_progress"
  | .blocked => "blocked"
  | .review => "review"
  | .done => "done"
  | .failed => "failed"
  | .cancelled => "cancelled"

/-- Embeds the event rows the store appends. -/
structure Event where
  agent : String
  type : String
  content : String
  deriving DecidableEq, Repr

/-- State of one work item together with its event log. -/
structure ItemState where
  status : TaskStatus
  blockedReason : String
  events : List Event
  deriving DecidableEq, Repr

/-- Store and CLI operations touching the status or blocked reason of one
work item. -/
inductive StoreOp where
  | updateStatus (st : TaskStatus)
  | block (reason : String)
  | unblock (answer : String)
  | answerSkip
  | rejectCascade
  | resetStale
  deriving DecidableEq, Repr

/-- Embeds `UpdateTaskStatus`: sets the status and appends a
status-changed event; the blocked reason is not touched. -/
def updateTaskStatus (st : TaskStatus) (s : ItemState) : ItemState :=
  { s with
    status := st
    events := s.events ++ [⟨"", "status_changed", "Status changed to " ++ statusStr st⟩] }

/-- Embeds `BlockTask`: sets status blocked with the reason and appends a
blocked event. -/
def blockTask (reason : String) (s : ItemState) : ItemState :=
  { status := .blocked, blockedReason := reason
    events := s.events ++ [⟨"", "blocked", reason⟩] }

/-- Embeds `UnblockTask`: unconditionally sets status backlog, clears the
blocked reason, and appends an unblocked event attributed to the user and
carrying the answer.  There is no precondition on the current status. -/
def unblockTask (answer : String) (s : ItemState) : ItemState :=
  { status := .backlog, blockedReason := ""
    events := s.events ++ [⟨"user", "unblocked", "User answered: " ++ answer⟩] }

/-- Embeds the per-item effect of `ResetStaleTasks`: a task in progress or
in review goes back to backlog; no event is appended. -/
def resetStaleTask (s : ItemState) : ItemState :=
  if s.status = .inProgress || s.status = .review then
    { s with status := .backlog }
  else s

/-- Applies one operation.  The skip branch of `runAnswer` runs only on a
blocked task (the command refuses otherwise) and performs an update to
cancelled followed by a cancelled event; the cascade of `runEpicReject`
moves every task that is neither done nor failed to failed via
`UpdateTaskStatus`. -/
def applyOp : StoreOp → ItemState → ItemState
  | .updateStatus st, s => updateTaskStatus st s
  | .block r, s => blockTask r s
  | .unblock a, s => unblockTask a s
  | .answerSkip, s =>
    if s.status = .blocked then
      let s1 := updateTaskStatus .cancelled s
      { s1 with events := s1.events ++ [⟨"user", "cancelled", "User skipped blocked task"⟩] }
    else s
  | .rejectCascade, s =>
    if s.status ≠ .done ∧ s.status ≠ .failed then updateTaskStatus .failed s else s
  | .resetStale, s => resetStaleTask s

/-- Applies a sequence of operations in order. -/
def applyOps (ops : List StoreOp) (s : ItemState) : ItemState :=
  ops.foldl (fun st op => applyOp op st) s

/-- State of a freshly created item: backlog, no blocked reason, one
created event. -/
def initItem : ItemState :=
  { status := .backlog, blockedReason := ""
    events := [⟨"", "created", "Task created"⟩] }

/-- Invariant of claim C2: the blocked reason is non-empty exactly when
the status is blocked. -/
def blockedInv (s : ItemState) : Prop :=
  s.blockedReason ≠ "" ↔ s.status = .blocked

instance (s : ItemState) : Decidable (blockedInv s) := by
  unfold blockedInv; infer_instance

/-! ## Worker pool: ready filter
Embeds the dispatch of `Pool.Run` and the skip filter of `runParallel`
from `internal/worker/pool.go`. -/

/-- Fields of a pool task the run dispatch and skip filter read. -/
structure PoolTask where
  id : Int
  title : String
  status : TaskStatus
  blockedReason : String
  assignedAgent : String
  deriving DecidableEq, Repr

/-- Result record the pool reports for a task it does not execute. -/
structure TaskResult where
  taskId : Int
  title : String
  status : String
  log : List String
  deriving DecidableEq, Repr

/-- Embeds the skip filter at the top of the `runParallel` loop: done and
blocked tasks and tasks without an assigned agent are surfaced as results
without being executed; every other task (cancelled included) enters a
worker. -/
def parallelSkip (t : PoolTask) : Option TaskResult :=
  if t.status = .done then
    some ⟨t.id, t.title, "done", ["Already done"]⟩
  else if t.status = .blocked then
    some ⟨t.id, t.title, "blocked", ["Blocked: " ++ t.blockedReason]⟩
  else if t.assignedAgent = "" then
    some ⟨t.id, t.title, "failed", ["No agent assigned"]⟩
  else none

/-- Embeds the dispatch condition of `Pool.Run`: with at most one worker
or at most one task the sequential path runs. -/
def poolSequentialPath (maxWorkers : Int) (tasks : List PoolTask) : Bool :=
  maxWorkers ≤ 1 || (tasks.length : Int) ≤ 1

/-- Tasks that reach `executeTask` under `Pool.Run`: the sequential path
executes every task unconditionally, the parallel path executes exactly
the tasks its skip filter lets through. -/
def poolExecuted (maxWorkers : Int) (tasks : List PoolTask) : List PoolTask :=
  if poolSequentialPath maxWorkers tasks then tasks
  else tasks.filter fun t => (parallelSkip t).isNone

/-! ## Epic acceptance
Embeds `runEpicAccept` from `internal/cli/run.go` as a pure function of
the store state and an oracle describing the git command outcomes. -/

/-- Work-item kinds. -/
inductive TaskKind where
  | epic
  | task
  deriving DecidableEq, Repr

/-- Store fields `runEpicAccept` reads and writes. -/
structure StoreItem where
  id : Int
  kind : TaskKind
  status : TaskStatus
  gitBranch : String
  deriving DecidableEq, Repr

/-- Oracle for the git operations of `runEpicAccept`: `none` models a
failing command. -/
structure AcceptVCS where
  baseBranch : Option String
  diffStat : Option String
  hasUncommitted : Bool
  commitOk : Bool
  mergeOk : Bool
  deriving DecidableEq, Repr

/-- Outcome of `runEpicAccept`. -/
inductive AcceptResult where
  | errNotEpic
  | errNoBranch
  | errBase
  | errDiffStat
  | noChanges
  | errCommit
  | errMerge
  | accepted
  deriving DecidableEq, Repr

/-- Store state `runEpicAccept` operates on: the epic, its child tasks,
and the epic event log. -/
structure AcceptState where
  epic : StoreItem
  tasks : List StoreItem
  events : List Event
  deriving DecidableEq, Repr

/-- Embeds `runEpicAccept`: checks the item is an epic with a safety
branch, requires a base branch and a non-empty diff stat, commits pending
changes, merges the branch, deletes it, and marks the epic done with an
accepted event.  The child tasks are never consulted. -/
def runEpicAccept (v : AcceptVCS) (st : AcceptState) : AcceptResult × AcceptState :=
  if st.epic.kind ≠ .epic then (.errNotEpic, st)
  else if st.epic.gitBranch = "" then (.errNoBranch, st)
  else
    match v.baseBranch with
    | none => (.errBase, st)
    | some base =>
      match v.diffStat with
      | none => (.errDiffStat, st)
      | some stat =>
        if stat = "" then (.noChanges, st)
        else if v.hasUncommitted && !v.commitOk then (.errCommit, st)
        else if !v.mergeOk then (.errMerge, st)
        else
          (.accepted,
           { st with
             epic := { st.epic with status := .done }
             events := st.events ++
               [⟨"user", "accepted", "Merged " ++ st.epic.gitBranch ++ " into " ++ base⟩] })

/-- Epic used as the failing input of claim C1. -/
def c1Epic : StoreItem :=
  { id := 1, kind := .epic, status := .review, gitBranch := "hive/epic-1" }

/-- Child task of the failing input of claim C1, still in progress. -/
def c1Child : StoreItem :=
  { id := 2, kind := .task, status := .inProgress, gitBranch := "" }

/-- Store state of the failing input of claim C1. -/
def c1State : AcceptState := { epic := c1Epic, tasks := [c1Child], events := [] }

/-- Git oracle of the failing input of claim C1: everything succeeds and
the diff is non-empty. -/
def c1VCS : AcceptVCS :=
  { baseBranch := some "main", diffStat := some " 1 file changed"
    hasUncommitted := false, commitOk := true, mergeOk := true }

/-! ## CLI runner
Embeds `CLIRunner.Run` from `internal/agent/cli_runner.go` as a pure
function of the process outcome. -/

/-- Error value `cmd.Run` produced, when it failed: the exit code when
the error was an exit error, and the error text used when it is wrapped
into the response error. -/
structure ProcErr where
  exitCode : Option Int
  text : String
  deriving DecidableEq, Repr

/-- Outcome of the spawned process: the optional run error, whether the
context deadline had expired, and the captured output streams. -/
structure ProcOutcome where
  err : Option ProcErr
  deadlineExceeded : Bool
  stdout : String
  stderr : String
  deriving DecidableEq, Repr

/-- Embeds the agent `Response` record (duration elided). -/
structure AgentResponse where
  output : String
  exitCode : Int
  error : Option String
  deriving DecidableEq, Repr

/-- Timeout message of `CLIRunner.Run`. -/
def timeoutMsg (name : String) (timeoutSec : Int) : String :=
  "agent " ++ name ++ " timed out after " ++ toString timeoutSec ++ "s"

/-- Exit message of `CLIRunner.Run` for a process failure: the trimmed
standard error when present, otherwise the wrapped run error text. -/
def exitMsg (name : String) (code : Int) (stderrTrimmed errText : String) : String :=
  if stderrTrimmed ≠ "" then
    "agent " ++ name ++ " exited with code " ++ toString code ++ ": " ++ stderrTrimmed
  else
    "agent " ++ name ++ " exited with code " ++ toString code ++ ": " ++ errText

/-- Embeds `CLIRunner.Run` after the process finished: on a run error
during an expired deadline it returns the timeout response together with
the same error; on any other run error it returns the response carrying
the exit code (or -1 when unavailable) and the stderr-derived error, with
a nil function error; on success it returns exit code 0. -/
def cliRun (name : String) (timeoutSec : Int) (o : ProcOutcome) :
    AgentResponse × Option String :=
  match o.err with
  | none => ({ output := o.stdout, exitCode := 0, error := none }, none)
  | some e =>
    if o.deadlineExceeded then
      let msg := timeoutMsg name timeoutSec
      ({ output := o.stdout, exitCode := -1, error := some msg }, some msg)
    else
      let code := e.exitCode.getD (-1)
      let st := String.mk (goTrimSpace o.stderr.data)
      ({ output := o.stdout, exitCode := code
         error := some (exitMsg name code st e.text) }, none)

/-! ## Concrete inputs used by counterexamples -/

/-- Diff of 8100 bytes: over the 8000-byte cut of the code, under the
8192-byte bound of the claim. -/
def c6Diff : List Char := List.replicate 8100 'a'

/-- State of a task that was blocked and then answered with skip. -/
def c2Skipped : ItemState := applyOps [.block "REST or GraphQL?", .answerSkip] initItem

/-- Operations that claim C2 provably tolerates: blocking with a non-empty
reason and unblocking. -/
def benignOp : StoreOp → Bool
  | .block r => r ≠ ""
  | .unblock _ => true
  | _ => false

/-- State of a task stuck in progress, before a stale reset. -/
def c3Stuck : ItemState := applyOps [.updateStatus .inProgress] initItem

/-- Cancelled pool task with an assigned agent. -/
def c4Cancelled : PoolTask :=
  { id := 1, title := "Cancelled task", status := .cancelled, blockedReason := ""
    assignedAgent := "coder" }

/-- Ready pool task accompanying the cancelled one. -/
def c4Other : PoolTask :=
  { id := 2, title := "Other task", status := .backlog, blockedReason := ""
    assignedAgent := "coder" }

/-- Done pool task handed to the sequential path. -/
def c4Done : PoolTask :=
  { id := 3, title := "Done task", status := .done, blockedReason := ""
    assignedAgent := "coder" }

/-! ## Helper lemmas -/

lemma containsAny_iff (slice targets : List String) :
    containsAny slice targets = true ↔ ∃ t ∈ targets, t ∈ slice := by
  unfold containsAny
  simp only [List.any_eq_true, decide_eq_true_eq]
  aesop

lemma notmem_of_containsAny_false {slice targets : List String}
    (h : containsAny slice targets = false) : ∀ t ∈ targets, t ∉ slice := by
  intro t ht hts
  have htrue : containsAny slice targets = true := (containsAny_iff _ _).mpr ⟨t, ht, hts⟩
  rw [htrue] at h
  simp at h

lemma count_cons_notmem (l : List String) (g : String) (hg : g ∉ l) :
    (∀ f ∈ l, (g :: l).count f = l.count f) ∧ (∀ f, f ∉ l → (g :: l).count f ≤ 1) := by
  constructor
  · intro f hf
    have : f ≠ g := fun e => hg (e ▸ hf)
    simp [List.count_cons, this]
  · intro f hf
    have h0 : l.count f = 0 := List.count_eq_zero.mpr hf
    by_cases hfg : f = g
    · subst hfg; simp [List.count_cons, h0]
    · simp [List.count_cons, hfg, h0]

lemma effargs_shape (a : Agent) :
    EffectiveArgs a = a.args ∨
    (∃ g, g ∉ a.args ∧ EffectiveArgs a = g :: a.args) ∨
    (EffectiveArgs a = "--dangerously-skip-permissions" :: "--print" :: a.args ∧
      "--print" ∉ a.args ∧ "--dangerously-skip-permissions" ∉ "--print" :: a.args) := by
  unfold EffectiveArgs
  by_cases hm : a.mode ≠ "cli"
  · simp [hm]
  · simp only [hm, if_false]
    by_cases hc : a.cmd = "claude"
    · simp only [hc, if_true]
      by_cases hp : containsAny a.args ["-p", "--print"] = true
      · simp only [hp, Bool.not_true, Bool.false_eq_true, if_false]
        by_cases hs : (a.autoAccept && !containsAny a.args
            ["--dangerously-skip-permissions", "--permission-mode"]) = true
        · right; left
          refine ⟨"--dangerously-skip-permissions", ?_, by simp [hs]⟩
          have := notmem_of_containsAny_false (by
            rcases Bool.and_eq_true .. |>.mp hs with ⟨_, hn⟩
            exact Bool.not_eq_true' .. |>.mp hn)
          exact this "--dangerously-skip-permissions" (by simp)
        · left; simp [hs]
      · have hpf : containsAny a.args ["-p", "--print"] = false := by
          revert hp; cases containsAny a.args ["-p", "--print"] <;> simp
        have hprint : "--print" ∉ a.args :=
          notmem_of_containsAny_false hpf "--print" (by simp)
        simp only [hpf, Bool.not_false, if_true]
        by_cases hs : (a.autoAccept && !containsAny ("--print" :: a.args)
            ["--dangerously-skip-permissions", "--permission-mode"]) = true
        · right; right
          refine ⟨by simp [hs], hprint, ?_⟩
          have hcf := (Bool.and_eq_true ..).mp hs |>.2
          have hcf2 : containsAny ("--print" :: a.args)
              ["--dangerously-skip-permissions", "--permission-mode"] = false :=
            Bool.not_eq_true' .. |>.mp hcf
          exact notmem_of_containsAny_false hcf2 "--dangerously-skip-permissions" (by simp)
        · right; left
          exact ⟨"--print", hprint, by simp [hs]⟩
    · simp only [hc, if_false]
      by_cases hg : a.cmd = "gemini"
      · simp only [hg, if_true]
        by_cases hy : (a.autoAccept && !containsAny a.args ["-y", "--yolo"]) = true
        · right; left
          refine ⟨"--yolo", ?_, by simp [hy]⟩
          have hcf := (Bool.and_eq_true ..).mp hy |>.2
          exact notmem_of_containsAny_false (Bool.not_eq_true' .. |>.mp hcf) "--yolo" (by simp)
        · left; simp [hy]
      · simp only [hg, if_false]
        by_cases hx : a.cmd = "codex"
        · simp only [hx, if_true]
          by_cases hf : (a.autoAccept && !containsAny a.args ["--full-auto", "--approval-mode"]) = true
          · right; left
            refine ⟨"--full-auto", ?_, by simp [hf]⟩
            have hcf := (Bool.and_eq_true ..).mp hf |>.2
            exact notmem_of_containsAny_false (Bool.not_eq_true' .. |>.mp hcf) "--full-auto" (by simp)
          · left; simp [hf]
        · simp [hx]

lemma mem_effargs_of_mem (a : Agent) (f : String) (hf : f ∈ a.args) :
    f ∈ EffectiveArgs a := by
  rcases effargs_shape a with h | ⟨g, _, h⟩ | ⟨h, _, _⟩ <;> rw [h] <;> simp [hf]

lemma containsAny_cons_ne (s : String) (slice targets : List String)
    (hs : ∀ t ∈ targets, t ≠ s) :
    containsAny (s :: slice) targets = containsAny slice targets := by
  simp only [containsAny, List.any_cons]
  have : (targets.any fun t => s = t) = false := by
    rw [List.any_eq_false]
    intro t ht
    simp [Ne.symm (hs t ht)]
  rw [this, Bool.false_or]

lemma containsAny_cons_of (s : String) {slice targets : List String}
    (h : containsAny slice targets = true) : containsAny (s :: slice) targets = true := by
  unfold containsAny at h ⊢
  simp [List.any_cons, h]

lemma benign_preserves_inv (ops : List StoreOp) :
    ∀ s : ItemState, blockedInv s → (∀ op ∈ ops, benignOp op = true) →
      blockedInv (applyOps ops s) := by
  induction ops with
  | nil => intro s hs _; exact hs
  | cons op rest ih =>
    intro s hs hops
    have hop : benignOp op = true := hops op (by simp)
    have hrest : ∀ o ∈ rest, benignOp o = true := fun o ho => hops o (by simp [ho])
    have hnext : blockedInv (applyOp op s) := by
      cases op with
      | block r =>
        have hr : r ≠ "" := by simpa [benignOp] using hop
        simp [applyOp, blockTask, blockedInv, hr]
      | unblock a => simp [applyOp, unblockTask, blockedInv]
      | updateStatus st => simp [benignOp] at hop
      | answerSkip => simp [benignOp] at hop
      | rejectCascade => simp [benignOp] at hop
      | resetStale => simp [benignOp] at hop
    simpa [applyOps] using ih (applyOp op s) hnext hrest

/-! ## Claim theorems -/

/-- Claim C1 (code bug): epic acceptance is supposed to be guarded so that
it succeeds only when every child task is done or cancelled, but the CLI
accept path never consults the child tasks: on an epic whose only child is
still in progress it merges the branch, reports success, and marks the
epic done while a non-terminal task remains. -/
theorem c1_accept_unguarded :
    (runEpicAccept c1VCS c1State).1 = .accepted ∧
    (runEpicAccept c1VCS c1State).2.epic.status = .done ∧
    c1Child ∈ (runEpicAccept c1VCS c1State).2.tasks ∧
    c1Child.status ≠ .done ∧ c1Child.status ≠ .cancelled := by decide

/-- Claim C2 (counterexample): answering a blocked task with skip cancels
it through a plain status update that leaves the blocked reason in place,
so the reached state has a non-empty blocked reason with a status other
than blocked, refuting the invariant as claimed. -/
theorem c2_counterexample :
    c2Skipped.status = .cancelled ∧ c2Skipped.blockedReason ≠ "" ∧
    ¬ blockedInv c2Skipped := by decide

/-- Claim C2 (amended): the blocked-reason invariant holds for every
sequence of block operations with a non-empty reason and unblock
operations; but a plain status update never touches the blocked reason,
which is how the skip answer and the reject cascade can break the
invariant on a blocked task. -/
theorem c2_blocked_reason_inv :
    (∀ ops : List StoreOp, (∀ op ∈ ops, benignOp op = true) →
      blockedInv (applyOps ops initItem)) ∧
    (∀ (s : ItemState) (st : TaskStatus),
      (applyOp (.updateStatus st) s).blockedReason = s.blockedReason) := by
  constructor
  · intro ops hops
    exact benign_preserves_inv ops initItem (by decide) hops
  · intro s st
    simp [applyOp, updateTaskStatus]

/-- Claim C2 witness: the amended invariant applied to a concrete
block-then-unblock history. -/
theorem c2_witness :
    blockedInv (applyOps [.block "Which DB to use?", .unblock "PostgreSQL"] initItem) :=
  c2_blocked_reason_inv.1 [.block "Which DB to use?", .unblock "PostgreSQL"] (by decide)

/-- Claim C3 (counterexample): resetting stale tasks changes the status of
an in-progress task back to backlog without appending any event, so not
every status mutation of the store logs an event. -/
theorem c3_counterexample :
    (applyOp .resetStale c3Stuck).status ≠ c3Stuck.status ∧
    (applyOp .resetStale c3Stuck).events = c3Stuck.events := by decide

/-- Claim C3 (amended): the status mutators UpdateTaskStatus, BlockTask
and UnblockTask each append their corresponding event, while
ResetStaleTasks changes statuses with no event at all. -/
theorem c3_status_events :
    ∀ s : ItemState,
      (∀ st, (applyOp (.updateStatus st) s).events
          = s.events ++ [⟨"", "status_changed", "Status changed to " ++ statusStr st⟩] ∧
        (applyOp (.updateStatus st) s).status = st) ∧
      (∀ r, (applyOp (.block r) s).events = s.events ++ [⟨"", "blocked", r⟩] ∧
        (applyOp (.block r) s).status = .blocked) ∧
      (∀ a, (applyOp (.unblock a) s).events
          = s.events ++ [⟨"user", "unblocked", "User answered: " ++ a⟩] ∧
        (applyOp (.unblock a) s).status = .backlog) ∧
      (applyOp .resetStale s).events = s.events := by
  intro s
  refine ⟨fun st => ⟨rfl, rfl⟩, fun r => ⟨rfl, rfl⟩, fun a => ⟨rfl, rfl⟩, ?_⟩
  simp only [applyOp, resetStaleTask]
  split <;> rfl

/-- Claim C4 (counterexample): the ready filter does not behave as
claimed: the parallel path executes a cancelled task, and the sequential
path of the pool executes even a done task. -/
theorem c4_counterexample :
    c4Cancelled ∈ poolExecuted 3 [c4Cancelled, c4Other] ∧
    c4Cancelled.status = .cancelled ∧
    poolSequentialPath 1 [c4Done] = true ∧
    c4Done ∈ poolExecuted 1 [c4Done] := by decide

/-- Claim C4 (amended): only the parallel path filters, and it skips
exactly the done tasks, the blocked tasks and the tasks without an
assigned agent, surfacing each with its reason; cancelled tasks are not
filtered, and the sequential path executes every task it is given. -/
theorem c4_ready_filter :
    ∀ (mw : Int) (tasks : List PoolTask),
      (poolSequentialPath mw tasks = false →
        ∀ t ∈ tasks,
          ((t.status = .done ∨ t.status = .blocked ∨ t.assignedAgent = "") →
            t ∉ poolExecuted mw tasks) ∧
          (t.status = .done →
            parallelSkip t = some ⟨t.id, t.title, "done", ["Already done"]⟩) ∧
          (t.status ≠ .done → t.status = .blocked →
            parallelSkip t = some ⟨t.id, t.title, "blocked", ["Blocked: " ++ t.blockedReason]⟩) ∧
          (t.status ≠ .done → t.status ≠ .blocked → t.assignedAgent = "" →
            parallelSkip t = some ⟨t.id, t.title, "failed", ["No agent assigned"]⟩)) ∧
      (poolSequentialPath mw tasks = true → poolExecuted mw tasks = tasks) := by
  intro mw tasks
  constructor
  · intro hseq t ht
    have hskip : (t.status = .done ∨ t.status = .blocked ∨ t.assignedAgent = "") →
        (parallelSkip t).isSome := by
      intro h
      unfold parallelSkip
      rcases h with h | h | h <;> split_ifs <;> simp_all
    refine ⟨?_, ?_, ?_, ?_⟩
    · intro h hmem
      unfold poolExecuted at hmem
      rw [hseq] at hmem
      simp only [Bool.false_eq_true, if_false, List.mem_filter] at hmem
      have := hskip h
      rw [Option.isNone_iff_eq_none] at hmem
      rw [Option.isSome_iff_ne_none] at this
      exact this hmem.2
    · intro h; simp [parallelSkip, h]
    · intro h1 h2; simp [parallelSkip, h1, h2]
    · intro h1 h2 h3; simp [parallelSkip, h1, h2, h3]
  · intro hseq
    unfold poolExecuted
    rw [hseq]
    simp

/-- Claim C4 witness: the amended filter applied to a concrete parallel
run and a concrete sequential run. -/
theorem c4_ready_filter_witness :
    c4Done ∉ poolExecuted 3 [c4Done, c4Other] ∧ poolExecuted 1 [c4Done] = [c4Done] :=
  ⟨((c4_ready_filter 3 [c4Done, c4Other]).1 (by decide) c4Done (by decide)).1
      (Or.inl (by decide)),
   (c4_ready_filter 1 [c4Done]).2 (by decide)⟩

/-- Claim C6 (counterexample): an 8100-byte diff is at most 8 KiB, yet the
builder truncates it, because the cut is made at 8000 bytes rather than
8192. -/
theorem c6_counterexample :
    c6Diff.length ≤ 8192 ∧ truncateDiff c6Diff ≠ c6Diff := by
  have hnc : (natChars 8100).length = 4 := by decide
  have h1 : ("\n\n... (diff truncated, ".data : List Char).length = 23 := by decide
  have h2 : (" bytes total)".data : List Char).length = 13 := by decide
  constructor
  · simp only [c6Diff, List.length_replicate]; omega
  · intro h
    apply_fun List.length at h
    rw [truncateDiff] at h
    simp only [c6Diff, List.length_replicate] at h
    rw [if_neg (by omega)] at h
    simp only [List.length_append, List.length_take, List.length_replicate, hnc, h1, h2] at h
    omega

/-- Claim C6 (amended): the reviewer diff is acquired by trying unstaged
changes, then staged changes, then the diff against the previous commit;
diffs of at most 8000 bytes pass through unchanged, and longer diffs are
cut to exactly 8000 bytes followed by a footer naming the original byte
length. -/
theorem c6_diff_policy :
    (∀ d : DiffCmds, cmdOk d.unstaged = true → gitDiff d = truncateDiff (d.unstaged.getD [])) ∧
    (∀ d : DiffCmds, cmdOk d.unstaged = false → cmdOk d.staged = true →
      gitDiff d = truncateDiff (d.staged.getD [])) ∧
    (∀ d : DiffCmds, cmdOk d.unstaged = false → cmdOk d.staged = false →
      cmdOk d.lastCommit = true → gitDiff d = truncateDiff (d.lastCommit.getD [])) ∧
    (∀ d : DiffCmds, cmdOk d.unstaged = false → cmdOk d.staged = false →
      cmdOk d.lastCommit = false → gitDiff d = []) ∧
    (∀ s : List Char, s.length ≤ 8000 → truncateDiff s = s) ∧
    (∀ s : List Char, 8000 < s.length →
      truncateDiff s = s.take 8000 ++ "\n\n... (diff truncated, ".data
        ++ natChars s.length ++ " bytes total)".data) := by
  refine ⟨?_, ?_, ?_, ?_, ?_, ?_⟩
  · intro d h; simp [gitDiff, h]
  · intro d h1 h2; simp [gitDiff, h1, h2]
  · intro d h1 h2 h3; simp [gitDiff, h1, h2, h3]
  · intro d h1 h2 h3; simp [gitDiff, h1, h2, h3]
  · intro s h; simp [truncateDiff, h]
  · intro s h
    rw [truncateDiff, if_neg (by omega)]

/-- Claim C6 witness: the acquisition order and pass-through applied to a
concrete command outcome and a concrete short diff. -/
theorem c6_diff_policy_witness :
    gitDiff ⟨some "x".data, none, none⟩ = truncateDiff "x".data ∧
    truncateDiff "ab".data = "ab".data :=
  ⟨c6_diff_policy.1 ⟨some "x".data, none, none⟩ (by decide),
   c6_diff_policy.2.2.2.2.1 "ab".data (by decide)⟩

/-- Claim C7: for CLI agents the effective argument list always carries
the non-interactive flag for claude (unless the user already passed it or
its short form), carries the auto-accept flag of each known tool when
auto-accept is on (unless the flag or its recognised equivalent is
present), never re-injects a flag that is already present, never
duplicates an injected flag, and suppresses each injection whenever the
flag or its recognised equivalent is already present: with the equivalent
in the user args the occurrence count of the injectable flag is exactly
its count in the user args (in particular zero when absent). -/
theorem c7_flag_injection :
    ∀ a : Agent, a.mode = "cli" →
      ((a.cmd = "claude" → "-p" ∈ a.args ∨ "--print" ∈ EffectiveArgs a) ∧
       (a.cmd = "claude" → a.autoAccept = true →
         "--permission-mode" ∈ a.args ∨ "--dangerously-skip-permissions" ∈ EffectiveArgs a) ∧
       (a.cmd = "gemini" → a.autoAccept = true →
         "-y" ∈ a.args ∨ "--yolo" ∈ EffectiveArgs a) ∧
       (a.cmd = "codex" → a.autoAccept = true →
         "--approval-mode" ∈ a.args ∨ "--full-auto" ∈ EffectiveArgs a) ∧
       (∀ f, f ∈ a.args → (EffectiveArgs a).count f = a.args.count f) ∧
       (∀ f, f ∉ a.args → (EffectiveArgs a).count f ≤ 1) ∧
       (a.cmd = "claude" → ("-p" ∈ a.args ∨ "--print" ∈ a.args) →
         (EffectiveArgs a).count "--print" = a.args.count "--print") ∧
       (a.cmd = "claude" →
         ("--dangerously-skip-permissions" ∈ a.args ∨ "--permission-mode" ∈ a.args) →
         (EffectiveArgs a).count "--dangerously-skip-permissions"
           = a.args.count "--dangerously-skip-permissions") ∧
       (a.cmd = "gemini" → ("-y" ∈ a.args ∨ "--yolo" ∈ a.args) →
         (EffectiveArgs a).count "--yolo" = a.args.count "--yolo") ∧
       (a.cmd = "codex" → ("--full-auto" ∈ a.args ∨ "--approval-mode" ∈ a.args) →
         (EffectiveArgs a).count "--full-auto" = a.args.count "--full-auto")) := by
  intro a hm
  have hmm : ¬ a.mode ≠ "cli" := by simp [hm]
  refine ⟨?_, ?_, ?_, ?_, ?_, ?_, ?_, ?_, ?_, ?_⟩
  · intro hc
    by_cases hp : containsAny a.args ["-p", "--print"] = true
    · rcases (containsAny_iff _ _).mp hp with ⟨t, ht, hmem⟩
      rcases (by simpa using ht : t = "-p" ∨ t = "--print") with rfl | rfl
      · exact Or.inl hmem
      · exact Or.inr (mem_effargs_of_mem a _ hmem)
    · right
      have hpf : containsAny a.args ["-p", "--print"] = false := by
        revert hp; cases containsAny a.args ["-p", "--print"] <;> simp
      unfold EffectiveArgs
      simp only [hmm, if_false, hc, if_true, hpf, Bool.not_false]
      split <;> simp
  · intro hc hauto
    by_cases hs : containsAny a.args ["--dangerously-skip-permissions", "--permission-mode"] = true
    · rcases (containsAny_iff _ _).mp hs with ⟨t, ht, hmem⟩
      rcases (by simpa using ht :
          t = "--dangerously-skip-permissions" ∨ t = "--permission-mode") with rfl | rfl
      · exact Or.inr (mem_effargs_of_mem a _ hmem)
      · exact Or.inl hmem
    · right
      have hsf : containsAny a.args ["--dangerously-skip-permissions", "--permission-mode"] = false := by
        revert hs; cases containsAny a.args ["--dangerously-skip-permissions", "--permission-mode"] <;> simp
      unfold EffectiveArgs
      simp only [hmm, if_false, hc, if_true]
      by_cases hp : containsAny a.args ["-p", "--print"] = true
      · simp only [hp, Bool.not_true, Bool.false_eq_true, if_false, hauto, hsf,
          Bool.not_false, Bool.and_self, if_true]
        simp
      · have hpf : containsAny a.args ["-p", "--print"] = false := by
          revert hp; cases containsAny a.args ["-p", "--print"] <;> simp
        have hcc : containsAny ("--print" :: a.args)
            ["--dangerously-skip-permissions", "--permission-mode"] = false := by
          rw [containsAny_cons_ne _ _ _ (by intro t ht; rcases (by simpa using ht :
            t = "--dangerously-skip-permissions" ∨ t = "--permission-mode") with rfl | rfl <;> decide)]
          exact hsf
        simp only [hpf, Bool.not_false, if_true, hauto, hcc, Bool.and_self]
        simp
  · intro hg hauto
    by_cases hy : containsAny a.args ["-y", "--yolo"] = true
    · rcases (containsAny_iff _ _).mp hy with ⟨t, ht, hmem⟩
      rcases (by simpa using ht : t = "-y" ∨ t = "--yolo") with rfl | rfl
      · exact Or.inl hmem
      · exact Or.inr (mem_effargs_of_mem a _ hmem)
    · right
      have hyf : containsAny a.args ["-y", "--yolo"] = false := by
        revert hy; cases containsAny a.args ["-y", "--yolo"] <;> simp
      unfold EffectiveArgs
      have hcl : a.cmd ≠ "claude" := by rw [hg]; decide
      simp only [hmm, if_false, hcl, hg, if_true, hauto, hyf, Bool.not_false, Bool.and_self]
      simp
  · intro hx hauto
    by_cases hfa : containsAny a.args ["--full-auto", "--approval-mode"] = true
    · rcases (containsAny_iff _ _).mp hfa with ⟨t, ht, hmem⟩
      rcases (by simpa using ht : t = "--full-auto" ∨ t = "--approval-mode") with rfl | rfl
      · exact Or.inr (mem_effargs_of_mem a _ hmem)
      · exact Or.inl hmem
    · right
      have hff : containsAny a.args ["--full-auto", "--approval-mode"] = false := by
        revert hfa; cases containsAny a.args ["--full-auto", "--approval-mode"] <;> simp
      unfold EffectiveArgs
      have hcl : a.cmd ≠ "claude" := by rw [hx]; decide
      have hge : a.cmd ≠ "gemini" := by rw [hx]; decide
      simp only [hmm, if_false, hcl, hge, hx, if_true, hauto, hff, Bool.not_false, Bool.and_self]
      simp
  · intro f hf
    rcases effargs_shape a with h | ⟨g, hg, h⟩ | ⟨h, hprint, hskip⟩
    · rw [h]
    · rw [h]; exact (count_cons_notmem a.args g hg).1 f hf
    · rw [h]
      have h1 : (("--print" : String) :: a.args).count f = a.args.count f :=
        (count_cons_notmem a.args _ hprint).1 f hf
      have h2 := (count_cons_notmem ("--print" :: a.args) _ hskip).1 f (by simp [hf])
      rw [h2, h1]
  · intro f hf
    rcases effargs_shape a with h | ⟨g, hg, h⟩ | ⟨h, hprint, hskip⟩
    · rw [h, List.count_eq_zero.mpr hf]; omega
    · rw [h]; exact (count_cons_notmem a.args g hg).2 f hf
    · rw [h]
      by_cases hfp : f ∈ ("--print" :: a.args)
      · have hfp2 : f = "--print" := by
          rcases List.mem_cons.mp hfp with h1 | h1
          · exact h1
          · exact absurd h1 hf
        subst hfp2
        rw [(count_cons_notmem ("--print" :: a.args) _ hskip).1 _ hfp]
        simp [List.count_cons, List.count_eq_zero.mpr hf]
      · exact (count_cons_notmem ("--print" :: a.args) _ hskip).2 f hfp
  · intro hc hmem
    have hp : containsAny a.args ["-p", "--print"] = true := by
      rcases hmem with h | h
      · exact (containsAny_iff _ _).mpr ⟨"-p", by simp, h⟩
      · exact (containsAny_iff _ _).mpr ⟨"--print", by simp, h⟩
    unfold EffectiveArgs
    simp only [hmm, if_false, hc, if_true, hp, Bool.not_true, Bool.false_eq_true]
    split_ifs with hs
    · simp [List.count_cons]
    · rfl
  · intro hc hmem
    have hsk : containsAny a.args ["--dangerously-skip-permissions", "--permission-mode"] = true := by
      rcases hmem with h | h
      · exact (containsAny_iff _ _).mpr ⟨"--dangerously-skip-permissions", by simp, h⟩
      · exact (containsAny_iff _ _).mpr ⟨"--permission-mode", by simp, h⟩
    unfold EffectiveArgs
    simp only [hmm, if_false, hc, if_true]
    by_cases hp : containsAny a.args ["-p", "--print"] = true
    · simp only [hp, Bool.not_true, Bool.false_eq_true, if_false, hsk, Bool.and_false]
    · have hpf : containsAny a.args ["-p", "--print"] = false := by
        revert hp; cases containsAny a.args ["-p", "--print"] <;> simp
      have hsk2 : containsAny ("--print" :: a.args)
          ["--dangerously-skip-permissions", "--permission-mode"] = true :=
        containsAny_cons_of _ hsk
      simp only [hpf, Bool.not_false, if_true, hsk2, Bool.and_false]
      simp [List.count_cons]
  · intro hg hmem
    have hy : containsAny a.args ["-y", "--yolo"] = true := by
      rcases hmem with h | h
      · exact (containsAny_iff _ _).mpr ⟨"-y", by simp, h⟩
      · exact (containsAny_iff _ _).mpr ⟨"--yolo", by simp, h⟩
    have hcl : a.cmd ≠ "claude" := by rw [hg]; decide
    unfold EffectiveArgs
    simp only [hmm, if_false, hcl, hg, if_true, hy, Bool.not_true, Bool.and_false]
    rfl
  · intro hx hmem
    have hfa : containsAny a.args ["--full-auto", "--approval-mode"] = true := by
      rcases hmem with h | h
      · exact (containsAny_iff _ _).mpr ⟨"--full-auto", by simp, h⟩
      · exact (containsAny_iff _ _).mpr ⟨"--approval-mode", by simp, h⟩
    have hcl : a.cmd ≠ "claude" := by rw [hx]; decide
    have hge : a.cmd ≠ "gemini" := by rw [hx]; decide
    unfold EffectiveArgs
    simp only [hmm, if_false, hcl, hge, hx, if_true, hfa, Bool.not_true, Bool.and_false]
    rfl

/-- Claim C7 witness: flag injection applied to a concrete claude
configuration with auto-accept, and suppression by the recognised
equivalent applied to a claude configuration that already passes the
short non-interactive flag. -/
theorem c7_flag_injection_witness :
    "--print" ∈ EffectiveArgs
        { role := "coder", mode := "cli", cmd := "claude"
          args := ["--model", "sonnet"], autoAccept := true } ∧
    "--dangerously-skip-permissions" ∈ EffectiveArgs
        { role := "coder", mode := "cli", cmd := "claude"
          args := ["--model", "sonnet"], autoAccept := true } ∧
    "--print" ∉ EffectiveArgs
        { role := "coder", mode := "cli", cmd := "claude"
          args := ["-p"], autoAccept := false } := by
  have h := c7_flag_injection
      { role := "coder", mode := "cli", cmd := "claude"
        args := ["--model", "sonnet"], autoAccept := true } rfl
  have hb := c7_flag_injection
      { role := "coder", mode := "cli", cmd := "claude"
        args := ["-p"], autoAccept := false } rfl
  refine ⟨?_, ?_, ?_⟩
  · rcases h.1 rfl with h1 | h1
    · exact absurd h1 (by decide)
    · exact h1
  · rcases h.2.1 rfl rfl with h1 | h1
    · exact absurd h1 (by decide)
    · exact h1
  · have hcount := hb.2.2.2.2.2.2.1 rfl (Or.inl (by decide))
    exact List.count_eq_zero.mp (hcount.trans (by decide))

/-- Claim C9: UnblockTask has no precondition on the current status: for
every state, terminal statuses included, it sets the status to backlog,
clears the blocked reason, and appends an unblocked event attributed to
the user carrying the answer. -/
theorem c9_unblock_unconditional :
    ∀ (s : ItemState) (answer : String),
      (unblockTask answer s).status = .backlog ∧
      (unblockTask answer s).blockedReason = "" ∧
      (unblockTask answer s).events
        = s.events ++ [⟨"user", "unblocked", "User answered: " ++ answer⟩] :=
  fun _ _ => ⟨rfl, rfl, rfl⟩

/-- Claim C10: the CLI runner returns a function error only when the run
failed during an expired deadline, in which case the response carries exit
code -1 and the timeout message; every other process failure yields a nil
function error with the exit code (or -1 when no exit code is available)
and the stderr-derived message only in the response error field; a clean
run yields exit code 0. -/
theorem c10_runner_errors :
    ∀ (name : String) (tsec : Int) (o : ProcOutcome),
      ((cliRun name tsec o).2 ≠ none ↔ o.err.isSome = true ∧ o.deadlineExceeded = true) ∧
      (∀ e, o.err = some e → o.deadlineExceeded = true →
        cliRun name tsec o =
          ({ output := o.stdout, exitCode := -1, error := some (timeoutMsg name tsec) },
           some (timeoutMsg name tsec))) ∧
      (∀ e, o.err = some e → o.deadlineExceeded = false →
        cliRun name tsec o =
          ({ output := o.stdout, exitCode := e.exitCode.getD (-1)
             error := some (exitMsg name (e.exitCode.getD (-1))
               (String.mk (goTrimSpace o.stderr.data)) e.text) }, none)) ∧
      (o.err = none → cliRun name tsec o = ({ output := o.stdout, exitCode := 0, error := none }, none)) := by
  intro name tsec o
  refine ⟨?_, ?_, ?_, ?_⟩
  · cases he : o.err with
    | none => simp [cliRun, he]
    | some e =>
      cases hd : o.deadlineExceeded with
      | false => simp [cliRun, he, hd]
      | true => simp [cliRun, he, hd]
  · intro e he hd
    simp [cliRun, he, hd]
  · intro e he hd
    simp [cliRun, he, hd]
  · intro he
    simp [cliRun, he]

/-- Claim C10 witness: the runner model applied to a concrete timeout and
a concrete failing exit. -/
theorem c10_runner_errors_witness :
    cliRun "claude" 300 ⟨some ⟨none, "killed"⟩, true, "partial", ""⟩ =
      ({ output := "partial", exitCode := -1
         error := some (timeoutMsg "claude" 300) }, some (timeoutMsg "claude" 300)) ∧
    cliRun "claude" 300 ⟨some ⟨some 2, "exit status 2"⟩, false, "out", " boom \n"⟩ =
      ({ output := "out", exitCode := 2
         error := some (exitMsg "claude" 2 "boom" "exit status 2") }, none) := by
  constructor
  · exact (c10_runner_errors "claude" 300 ⟨some ⟨none, "killed"⟩, true, "partial", ""⟩).2.1
      ⟨none, "killed"⟩ rfl rfl
  · have h := (c10_runner_errors "claude" 300
      ⟨some ⟨some 2, "exit status 2"⟩, false, "out", " boom \n"⟩).2.2.1
      ⟨some 2, "exit status 2"⟩ rfl rfl
    rw [h]
    decide

lemma verdictVote_cases (l : List Char) :
    verdictVote l = none ∨ verdictVote l = some "APPROVE" ∨ verdictVote l = some "REJECT" := by
  unfold verdictVote
  simp only []
  split_ifs <;> simp

lemma pass1_all_none (lines : List (List Char)) (acc : String)
    (h : ∀ l ∈ lines, verdictVote l = none) : pass1Verdict acc lines = acc := by
  induction lines generalizing acc with
  | nil => rfl
  | cons l rest ih =>
    have hl : verdictVote l = none := h l (by simp)
    have hrest : ∀ x ∈ rest, verdictVote x = none := fun x hx => h x (by simp [hx])
    simp [pass1Verdict, hl, ih acc hrest]

lemma pass1_const (v : String) (lines : List (List Char))
    (h : ∀ l ∈ lines, verdictVote l = none ∨ verdictVote l = some v) :
    pass1Verdict v lines = v := by
  induction lines with
  | nil => rfl
  | cons l rest ih =>
    have hrest : ∀ x ∈ rest, verdictVote x = none ∨ verdictVote x = some v :=
      fun x hx => h x (by simp [hx])
    rcases h l (by simp) with hl | hl <;> simp [pass1Verdict, hl, ih hrest]

lemma pass1_wins (v w : String) (lines : List (List Char)) (acc : String)
    (hv : ∀ l ∈ lines, verdictVote l ≠ some w)
    (he : ∃ l ∈ lines, verdictVote l = some v)
    (hcases : ∀ l, verdictVote l = none ∨ verdictVote l = some v ∨ verdictVote l = some w) :
    pass1Verdict acc lines = v := by
  induction lines generalizing acc with
  | nil => simp at he
  | cons l rest ih =>
    have hrest : ∀ x ∈ rest, verdictVote x ≠ some w := fun x hx => hv x (by simp [hx])
    rcases hcases l with hl | hl | hl
    · have he2 : ∃ x ∈ rest, verdictVote x = some v := by
        rcases he with ⟨x, hx, hxv⟩
        rcases List.mem_cons.mp hx with rfl | hx2
        · rw [hl] at hxv; cases hxv
        · exact ⟨x, hx2, hxv⟩
      simp [pass1Verdict, hl, ih acc hrest he2]
    · have hconst : ∀ x ∈ rest, verdictVote x = none ∨ verdictVote x = some v := by
        intro x hx
        rcases hcases x with h1 | h1 | h1
        · exact Or.inl h1
        · exact Or.inr h1
        · exact absurd h1 (hrest x hx)
      simp [pass1Verdict, hl, pass1_const v rest hconst]
    · exact absurd hl (hv l (by simp))

/-- Claim C5: ParseReview returns the verdict of the explicit VERDICT
line when one is present (approve and accept variants win approve, reject
and fail variants win reject), and only with no verdict line does it fall
back to the scored keyword heuristic, which rejects exactly when at least
one reject signal occurs and the reject score is at least the approve
score, approves exactly when at least one approve signal occurs and the
approve score is strictly greater, and is empty otherwise. -/
theorem c5_parse_review :
    ∀ s : String,
      ((∃ l ∈ splitOnChar '\n' s.data, verdictVote l = some "APPROVE") →
        (∀ l ∈ splitOnChar '\n' s.data, verdictVote l ≠ some "REJECT") →
        parseReviewVerdict s = "APPROVE") ∧
      ((∃ l ∈ splitOnChar '\n' s.data, verdictVote l = some "REJECT") →
        (∀ l ∈ splitOnChar '\n' s.data, verdictVote l ≠ some "APPROVE") →
        parseReviewVerdict s = "REJECT") ∧
      ((∀ l ∈ splitOnChar '\n' s.data, verdictVote l = none) →
        parseReviewVerdict s = inferVerdict (goToUpper s.data)) ∧
      (∀ u : List Char,
        (inferVerdict u = "REJECT" ↔
          1 ≤ signalScore rejectSignals u ∧
            signalScore approveSignals u ≤ signalScore rejectSignals u) ∧
        (inferVerdict u = "APPROVE" ↔
          1 ≤ signalScore approveSignals u ∧
            signalScore rejectSignals u < signalScore approveSignals u) ∧
        (inferVerdict u = "" ↔
          ¬(1 ≤ signalScore rejectSignals u ∧
              signalScore approveSignals u ≤ signalScore rejectSignals u) ∧
          ¬(1 ≤ signalScore approveSignals u ∧
              signalScore rejectSignals u < signalScore approveSignals u))) := by
  intro s
  refine ⟨?_, ?_, ?_, ?_⟩
  · intro he hv
    have h1 : pass1Verdict "" (splitOnChar '\n' s.data) = "APPROVE" :=
      pass1_wins "APPROVE" "REJECT" _ "" hv he
        (fun l => verdictVote_cases l |>.imp id id)
    simp [parseReviewVerdict, h1]
  · intro he hv
    have h1 : pass1Verdict "" (splitOnChar '\n' s.data) = "REJECT" :=
      pass1_wins "REJECT" "APPROVE" _ "" hv he
        (fun l => by rcases verdictVote_cases l with h | h | h
                     · exact Or.inl h
                     · exact Or.inr (Or.inr h)
                     · exact Or.inr (Or.inl h))
    simp [parseReviewVerdict, h1]
  · intro hn
    have h1 : pass1Verdict "" (splitOnChar '\n' s.data) = "" := pass1_all_none _ "" hn
    simp [parseReviewVerdict, h1]
  · intro u
    unfold inferVerdict
    simp only []
    split_ifs with h1 h2
    · simp only [Bool.and_eq_true, decide_eq_true_eq] at h1
      refine ⟨⟨fun _ => ⟨h1.1, h1.2⟩, fun _ => rfl⟩,
        ⟨fun h => absurd h (by decide), fun hc => by omega⟩,
        ⟨fun h => absurd h (by decide), fun hc => absurd ⟨h1.1, h1.2⟩ hc.1⟩⟩
    · simp only [Bool.and_eq_true, decide_eq_true_eq] at h1 h2
      refine ⟨⟨fun h => absurd h (by decide), fun hc => absurd ⟨by omega, by omega⟩ h1⟩,
        ⟨fun _ => ⟨h2.1, h2.2⟩, fun _ => rfl⟩,
        ⟨fun h => absurd h (by decide), fun hc => absurd ⟨h2.1, h2.2⟩ hc.2⟩⟩
    · simp only [Bool.and_eq_true, decide_eq_true_eq] at h1 h2
      refine ⟨⟨fun h => absurd h (by decide), fun hc => absurd ⟨by omega, by omega⟩ h1⟩,
        ⟨fun h => absurd h (by decide), fun hc => absurd ⟨by omega, by omega⟩ h2⟩,
        ⟨fun _ => ⟨fun hc => absurd ⟨by omega, by omega⟩ h1, fun hc => absurd ⟨by omega, by omega⟩ h2⟩,
         fun _ => rfl⟩⟩



/-- Claim C5 witness: the verdict computation applied to a plain verdict
line, a markdown lowercase variant, and a heuristic-only output. -/
theorem c5_parse_review_witness :
    parseReviewVerdict "Looks fine overall.\nVERDICT: APPROVE" = "APPROVE" ∧
    parseReviewVerdict "**Verdict:** reject" = "REJECT" ∧
    parseReviewVerdict "This must be fixed before merge." =
      inferVerdict (goToUpper "This must be fixed before merge.".data) :=
  ⟨(c5_parse_review "Looks fine overall.\nVERDICT: APPROVE").1 (by decide) (by decide),
   (c5_parse_review "**Verdict:** reject").2.1 (by decide) (by decide),
   (c5_parse_review "This must be fixed before merge.").2.2.1 (by decide)⟩

lemma priMatchAt_priority (l : List Char) (p : String) (rest : List Char)
    (h : priMatchAt l = some (p, rest)) : p = "high" ∨ p = "medium" ∨ p = "low" := by
  unfold priMatchAt at h
  split_ifs at h
  · cases h; left; rfl
  · cases h; right; left; rfl
  · cases h; right; right; rfl

lemma priorityFindAux_mem (l : List Char) (p : String) (h : priorityFindAux l = some p) :
    p = "high" ∨ p = "medium" ∨ p = "low" := by
  induction l with
  | nil => cases h
  | cons c rest ih =>
    rw [priorityFindAux] at h
    cases hm : priMatchAt (c :: rest) with
    | some pr =>
      obtain ⟨p1, r1⟩ := pr
      rw [hm] at h
      rw [Option.some_inj] at h
      subst h
      exact priMatchAt_priority _ _ _ hm
    | none =>
      rw [hm] at h
      exact ih h

lemma subtaskPriority_mem (content : List Char) :
    subtaskPriority content = "high" ∨ subtaskPriority content = "medium" ∨
      subtaskPriority content = "low" := by
  unfold subtaskPriority
  cases hp : priorityFindAux content with
  | none => right; left; rfl
  | some p => exact priorityFindAux_mem content p hp

lemma subtaskOfContent_props (content : List Char) (st : ParsedSubtask)
    (h : subtaskOfContent content = some st) :
    (st.priority = "high" ∨ st.priority = "medium" ∨ st.priority = "low") ∧
    isGarbageSubtask st.title = false ∧
    (priorityFindAux content = none → st.priority = "medium") := by
  unfold subtaskOfContent at h
  simp only [] at h
  split_ifs at h with hg hne
  · rw [Option.some_inj] at h
    subst h
    refine ⟨subtaskPriority_mem content, by simpa using hg, ?_⟩
    intro hp
    simp [subtaskPriority, hp]

lemma parseLoop_all (hasHdr : Bool) (P : ParsedSubtask → Prop)
    (hP : ∀ content st, subtaskOfContent content = some st → P st) :
    ∀ (lines : List (List Char)) (b : Bool), ∀ st ∈ parseLoop hasHdr b lines, P st := by
  intro lines
  induction lines with
  | nil =>
    intro b st hst
    rw [show parseLoop hasHdr b [] = [] from rfl] at hst
    cases hst
  | cons l rest ih =>
    intro b st hst
    rw [parseLoop] at hst
    cases hs : lineStep hasHdr b l with
    | toSection => rw [hs] at hst; exact ih true st hst
    | keep => rw [hs] at hst; exact ih b st hst
    | halt => rw [hs] at hst; cases hst
    | item content =>
      rw [hs] at hst
      dsimp only at hst
      cases hc : subtaskOfContent content with
      | none => rw [hc] at hst; exact ih true st hst
      | some st2 =>
        rw [hc] at hst
        rcases List.mem_cons.mp hst with rfl | hst2
        · exact hP content st hc
        · exact ih true st hst2

lemma lineStep_nonheader_skip (l : List Char) (hl : isHeaderLine l = false) :
    lineStep true false l = .keep := by
  unfold lineStep
  unfold isHeaderLine at hl
  simp only []
  rw [if_neg (by simp [hl])]
  simp

lemma parseLoop_skip_pre (pre rest : List (List Char))
    (hpre : ∀ l ∈ pre, isHeaderLine l = false) :
    parseLoop true false (pre ++ rest) = parseLoop true false rest := by
  induction pre with
  | nil => rfl
  | cons l t ih =>
    have hl := hpre l (by simp)
    have ht : ∀ x ∈ t, isHeaderLine x = false := fun x hx => hpre x (by simp [hx])
    rw [List.cons_append, parseLoop, lineStep_nonheader_skip l hl]
    exact ih ht

lemma mem_of_mem_parseSubtasksL (lines : List (List Char)) (st : ParsedSubtask)
    (h : st ∈ ParseSubtasksL lines) :
    st ∈ parseLoop (lines.any isHeaderLine) false lines := by
  unfold ParseSubtasksL at h
  simp only [] at h
  split_ifs at h
  · exact List.take_subset _ _ h
  · exact h

/-- Claim C8: ParseSubtasks returns at most ten subtasks; every returned
subtask has priority high, medium or low, with medium as the default when
the line carries no priority annotation; with an explicit SUBTASKS: header
the list items preceding the header are ignored; and no returned subtask
has a garbage title (a well-known section heading or a title shorter than
five characters). -/
theorem c8_parse_subtasks :
    (∀ s : String, (ParseSubtasks s).length ≤ 10) ∧
    (∀ s : String, ∀ st ∈ ParseSubtasks s,
      st.priority = "high" ∨ st.priority = "medium" ∨ st.priority = "low") ∧
    (∀ (content : List Char) (st : ParsedSubtask),
      priorityFindAux content = none → subtaskOfContent content = some st →
      st.priority = "medium") ∧
    (∀ (pre rest : List (List Char)) (hd : List Char),
      (∀ l ∈ pre, isHeaderLine l = false) → isHeaderLine hd = true →
      ParseSubtasksL (pre ++ hd :: rest) = ParseSubtasksL (hd :: rest)) ∧
    (∀ s : String, ∀ st ∈ ParseSubtasks s, isGarbageSubtask st.title = false) := by
  refine ⟨?_, ?_, ?_, ?_, ?_⟩
  · intro s
    unfold ParseSubtasks ParseSubtasksL
    simp only []
    split_ifs with h
    · simp
    · omega
  · intro s st hst
    have h2 := mem_of_mem_parseSubtasksL _ st hst
    exact (parseLoop_all _ _ (fun c st2 hc => (subtaskOfContent_props c st2 hc).1) _ _ st h2)
  · intro content st hp hc
    exact (subtaskOfContent_props content st hc).2.2 hp
  · intro pre rest hd hpre hhd
    have hany1 : (pre ++ hd :: rest).any isHeaderLine = true := by
      rw [List.any_eq_true]
      exact ⟨hd, by simp, hhd⟩
    have hany2 : (hd :: rest).any isHeaderLine = true := by
      rw [List.any_eq_true]
      exact ⟨hd, by simp, hhd⟩
    unfold ParseSubtasksL
    simp only [hany1, hany2]
    rw [parseLoop_skip_pre pre (hd :: rest) hpre]
  · intro s st hst
    have h2 := mem_of_mem_parseSubtasksL _ st hst
    exact (parseLoop_all _ _ (fun c st2 hc => (subtaskOfContent_props c st2 hc).2.1) _ _ st h2)


/-- Claim C8 witness: the header-skip equation applied to a concrete
preamble line, and the cap applied to a concrete output. -/
theorem c8_parse_subtasks_witness :
    ParseSubtasksL (["preamble line".data] ++ "SUBTASKS:".data :: ["1. Write the docs - today".data]) =
      ParseSubtasksL ("SUBTASKS:".data :: ["1. Write the docs - today".data]) ∧
    (ParseSubtasks "SUBTASKS:\n1. Setup auth middleware - Configure JWT verification (priority: high)").length ≤ 10 :=
  ⟨c8_parse_subtasks.2.2.2.1 ["preamble line".data] ["1. Write the docs - today".data]
      "SUBTASKS:".data (by decide) (by decide),
   c8_parse_subtasks.1 _⟩

end Hive
